import Mathlib

/-!
# Verification of the pill-splitter rectangle-splitting engine

Shallow embedding of the two pill-splitter variants found in the repository:

* the flat-color variant (`PillSplitter` with `splitPillsAt`,
  `handleMouseMove`, `handleMouseUp`), embedded in namespace `Flat`;
* the corner-rounding variant (`PillSplitter` with `splitBorderRadius`,
  `splitPillPart`, `movePartAside`, `onSingleClick`, `onMouseMove`,
  `onMouseUp`), embedded in namespace `Round`.

Modelling conventions:

* JavaScript numbers are modelled as exact rationals `ℚ`; every arithmetic
  operation the engine performs (+, -, *, / 2, abs, min, max, comparisons)
  is rational-exact.
* `generateId` produces a random string in the source; it is modelled as a
  fresh-identifier supply: a `Nat` counter threaded through the engine whose
  successive values stand for the successively generated ids.  Freshness and
  distinctness of generated ids hold by construction of the counter.
* `color` is kept as an opaque `String`, copied exactly as the source copies
  it via object spread.
* The container is modelled by its extent `(cw, ch)`; the source reads it
  from `containerRef.current.clientWidth/clientHeight` with fallback 1000.
-/

namespace Flat

/-- Minimum size of a freshly drawn shape (`MIN_DRAW_SIZE = 40`). -/
def MIN_DRAW_SIZE : ℚ := 40

/-- Minimum splittable size (`MIN_SPLIT_SIZE = 20`). -/
def MIN_SPLIT_SIZE : ℚ := 20

/-- A pill of the flat-color variant: `{ id, x, y, w, h, color }`. -/
structure Pill where
  id : Nat
  x : ℚ
  y : ℚ
  w : ℚ
  h : ℚ
  color : String
deriving Repr, DecidableEq

/-- The body of `splitPillsAt`'s `flatMap` callback for a single pill:
decides whether the split point `(splitX, splitY)` strictly crosses the
pill on each axis, splits into 4 or 2 children when the crossing axes are
splittable, and otherwise moves the pill aside by `±2` on each crossing
axis.  `nid` is the fresh-id supply for this pill's children. -/
def splitOnePill (splitX splitY : ℚ) (pill : Pill) (nid : Nat) : List Pill :=
  let withinX := pill.x < splitX ∧ pill.x + pill.w > splitX
  let withinY := pill.y < splitY ∧ pill.y + pill.h > splitY
  let leftWidth := splitX - pill.x
  let rightWidth := pill.x + pill.w - splitX
  let topHeight := splitY - pill.y
  let bottomHeight := pill.y + pill.h - splitY
  if ¬withinX ∧ ¬withinY then [pill]
  else if withinX ∧ leftWidth ≥ MIN_SPLIT_SIZE ∧ rightWidth ≥ MIN_SPLIT_SIZE then
    if withinY ∧ topHeight ≥ MIN_SPLIT_SIZE ∧ bottomHeight ≥ MIN_SPLIT_SIZE then
      [ { pill with id := nid, w := leftWidth, h := topHeight },
        { pill with id := nid + 1, x := splitX, w := rightWidth, h := topHeight },
        { pill with id := nid + 2, y := splitY, w := leftWidth, h := bottomHeight },
        { pill with id := nid + 3, x := splitX, y := splitY, w := rightWidth, h := bottomHeight } ]
    else
      [ { pill with id := nid, w := leftWidth },
        { pill with id := nid + 1, x := splitX, w := rightWidth } ]
  else if withinY ∧ topHeight ≥ MIN_SPLIT_SIZE ∧ bottomHeight ≥ MIN_SPLIT_SIZE then
    [ { pill with id := nid, h := topHeight },
      { pill with id := nid + 1, y := splitY, h := bottomHeight } ]
  else
    let offsetX := if withinX then
        (if pill.x + pill.w / 2 < splitX then splitX - pill.w - 2 else splitX + 2)
      else pill.x
    let offsetY := if withinY then
        (if pill.y + pill.h / 2 < splitY then splitY - pill.h - 2 else splitY + 2)
      else pill.y
    [ { pill with x := offsetX, y := offsetY } ]

/-- `splitPillsAt(splitX, splitY)`: `prev.flatMap(pill => …)` over the pill
list, threading the fresh-id supply (each pill's callback consumes at most
four fresh ids). -/
def splitPillsAt (splitX splitY : ℚ) : List Pill → Nat → List Pill
  | [], _ => []
  | pill :: rest, nid =>
    splitOnePill splitX splitY pill nid ++ splitPillsAt splitX splitY rest (nid + 4)

/-- The drag branch of `handleMouseMove`: the dragged pill is repositioned
to the raw pointer position minus the grab offset `(dx, dy)`; no clamping
is applied. -/
def handleMouseMoveDrag (dragId : Nat) (dx dy x y : ℚ) (pills : List Pill) : List Pill :=
  pills.map fun pill =>
    if pill.id = dragId then { pill with x := x - dx, y := y - dy } else pill

/-- The draw branch of `handleMouseUp`: the committed rectangle is the
bounding box of the gesture's start `(sx, sy)` and end `(ex, ey)`; a pill is
appended only when both dimensions reach `MIN_DRAW_SIZE`. -/
def handleMouseUpDraw (sx sy ex ey : ℚ) (pills : List Pill) (nid : Nat)
    (color : String) : List Pill :=
  let drawX := min sx ex
  let drawY := min sy ey
  let drawW := |ex - sx|
  let drawH := |ey - sy|
  if drawW ≥ MIN_DRAW_SIZE ∧ drawH ≥ MIN_DRAW_SIZE then
    pills ++ [{ id := nid, x := drawX, y := drawY, w := drawW, h := drawH, color := color }]
  else pills

end Flat

namespace Round

/-- Minimum size of a freshly drawn pill (`MIN_PILL_SIZE = 40`). -/
def MIN_PILL_SIZE : ℚ := 40

/-- Minimum size of a split part (`MIN_PART_SIZE = 20`). -/
def MIN_PART_SIZE : ℚ := 20

/-- Per-corner rounding flags of a pill part. -/
structure BorderRadius where
  topLeft : Bool
  topRight : Bool
  bottomLeft : Bool
  bottomRight : Bool
deriving Repr, DecidableEq

/-- A pill part of the corner-rounding variant:
`{ id, x, y, width, height, color, borderRadius, parentId? }`.
The `parentId` field is declared optional in the source and never written;
it is modelled as an `Option Nat` that stays `none`. -/
structure PillPart where
  id : Nat
  x : ℚ
  y : ℚ
  width : ℚ
  height : ℚ
  color : String
  borderRadius : BorderRadius
  parentId : Option Nat := none
deriving Repr, DecidableEq

/-- Orientation of a split line: a vertical line cuts at an `x` coordinate,
a horizontal line cuts at a `y` coordinate. -/
inductive SplitLine where
  | vertical
  | horizontal
deriving Repr, DecidableEq

/-- `splitBorderRadius(part, splitLine)`: the two border-radius records for
the parts resulting from a split; outer corners keep the parent's flags,
corners on the cut become square. -/
def splitBorderRadius (part : PillPart) (splitLine : SplitLine) :
    BorderRadius × BorderRadius :=
  match splitLine with
  | .vertical =>
    ( { topLeft := part.borderRadius.topLeft, bottomLeft := part.borderRadius.bottomLeft,
        topRight := false, bottomRight := false },
      { topRight := part.borderRadius.topRight, bottomRight := part.borderRadius.bottomRight,
        topLeft := false, bottomLeft := false } )
  | .horizontal =>
    ( { topLeft := part.borderRadius.topLeft, topRight := part.borderRadius.topRight,
        bottomLeft := false, bottomRight := false },
      { bottomLeft := part.borderRadius.bottomLeft, bottomRight := part.borderRadius.bottomRight,
        topLeft := false, topRight := false } )

/-- `splitPillPart(part, splitLine, splitAt)`: returns the original part
unchanged (a 1-element list) when the part is too small or the line too
close to an edge, else the two cut parts with fresh ids `nid`, `nid + 1`. -/
def splitPillPart (part : PillPart) (splitLine : SplitLine) (splitAt : ℚ)
    (nid : Nat) : List PillPart :=
  match splitLine with
  | .vertical =>
    if part.width < 2 * MIN_PART_SIZE ∨ splitAt ≤ part.x + MIN_PART_SIZE ∨
        splitAt ≥ part.x + part.width - MIN_PART_SIZE then
      [part]
    else
      let leftWidth := splitAt - part.x
      let rightWidth := part.width - leftWidth
      let radii := splitBorderRadius part .vertical
      [ { part with id := nid, width := leftWidth, borderRadius := radii.1 },
        { part with id := nid + 1, x := splitAt, width := rightWidth, borderRadius := radii.2 } ]
  | .horizontal =>
    if part.height < 2 * MIN_PART_SIZE ∨ splitAt ≤ part.y + MIN_PART_SIZE ∨
        splitAt ≥ part.y + part.height - MIN_PART_SIZE then
      [part]
    else
      let topHeight := splitAt - part.y
      let bottomHeight := part.height - topHeight
      let radii := splitBorderRadius part .horizontal
      [ { part with id := nid, height := topHeight, borderRadius := radii.1 },
        { part with id := nid + 1, y := splitAt, height := bottomHeight, borderRadius := radii.2 } ]

/-- `movePartAside(part, splitLine, splitAt)`: moves an unsplittable part to
one side of the split line, chosen from the part's center, clamped into the
container `(cw, ch)` (source fallback extent 1000 when unmeasured). -/
def movePartAside (cw ch : ℚ) (part : PillPart) (splitLine : SplitLine)
    (splitAt : ℚ) : PillPart :=
  match splitLine with
  | .vertical =>
    let center := part.x + part.width / 2
    if center < splitAt then
      { part with x := max 0 (min part.x (splitAt - part.width)) }
    else
      { part with x := min splitAt (cw - part.width) }
  | .horizontal =>
    let center := part.y + part.height / 2
    if center < splitAt then
      { part with y := max 0 (min part.y (splitAt - part.height)) }
    else
      { part with y := min splitAt (ch - part.height) }

/-- The body of `onSingleClick`'s per-pill loop (the `"drawing"` preview
sentinel, which the loop passes through, is not part of the model): tests
strict intersection with each split line, attempts the vertical split first,
then the horizontal split of each resulting part, falling back to
`movePartAside` when a split returns a single part.  Fresh ids are threaded
as in `splitPillPart`. -/
def splitOnePart (cw ch splitX splitY : ℚ) (pill : PillPart) (nid : Nat) :
    List PillPart :=
  let intersectsVertically := pill.x < splitX ∧ pill.x + pill.width > splitX
  let intersectsHorizontally := pill.y < splitY ∧ pill.y + pill.height > splitY
  if intersectsVertically ∧ intersectsHorizontally then
    match splitPillPart pill .vertical splitX nid with
    | [pL, pR] =>
      (match splitPillPart pL .horizontal splitY (nid + 2) with
       | [a, b] => [a, b]
       | _ => [movePartAside cw ch pL .horizontal splitY]) ++
      (match splitPillPart pR .horizontal splitY (nid + 4) with
       | [a, b] => [a, b]
       | _ => [movePartAside cw ch pR .horizontal splitY])
    | _ => [movePartAside cw ch pill .vertical splitX]
  else if intersectsVertically then
    match splitPillPart pill .vertical splitX nid with
    | [a, b] => [a, b]
    | _ => [movePartAside cw ch pill .vertical splitX]
  else if intersectsHorizontally then
    match splitPillPart pill .horizontal splitY nid with
    | [a, b] => [a, b]
    | _ => [movePartAside cw ch pill .horizontal splitY]
  else
    [pill]

/-- `onSingleClick` over the whole pill list: each pill is processed
independently and the results concatenated, in list order. -/
def onSingleClick (cw ch splitX splitY : ℚ) : List PillPart → Nat → List PillPart
  | [], _ => []
  | pill :: rest, nid =>
    splitOnePart cw ch splitX splitY pill nid ++ onSingleClick cw ch splitX splitY rest (nid + 6)

/-- The drag branch of `onMouseMove`: the dragged pill's new position is the
pointer minus the grab offset, clamped into `[0, cw - width] × [0, ch - height]`. -/
def onMouseMoveDrag (cw ch x y offsetX offsetY : ℚ) (pill : PillPart) : PillPart :=
  { pill with
    x := max 0 (min (x - offsetX) (cw - pill.width)),
    y := max 0 (min (y - offsetY) (ch - pill.height)) }

/-- The `"drawing"` preview rectangle maintained by `onMouseMove` for a draw
gesture from `(startX, startY)` to the current pointer `(x, y)`: width and
height are clamped up to `MIN_PILL_SIZE`. -/
def drawingPreview (startX startY x y : ℚ) : ℚ × ℚ × ℚ × ℚ :=
  (min x startX, min y startY,
   max |x - startX| MIN_PILL_SIZE, max |y - startY| MIN_PILL_SIZE)

/-- `onMouseUp` for a draw gesture: the preview pill is committed when its
width and height are both at least `MIN_PILL_SIZE`, else discarded.  Returns
the committed rectangle `(x, y, width, height)`, or `none` when discarded. -/
def onMouseUpDraw (startX startY x y : ℚ) : Option (ℚ × ℚ × ℚ × ℚ) :=
  let p := drawingPreview startX startY x y
  if p.2.2.1 ≥ MIN_PILL_SIZE ∧ p.2.2.2 ≥ MIN_PILL_SIZE then some p else none

end Round

namespace Flat

/-- Branch lemma: a pill the split point crosses on neither axis passes
through `splitOnePill` unchanged. -/
theorem splitOnePill_pass (splitX splitY : ℚ) (pill : Pill) (nid : Nat)
    (hA : ¬(pill.x < splitX ∧ pill.x + pill.w > splitX))
    (hB : ¬(pill.y < splitY ∧ pill.y + pill.h > splitY)) :
    splitOnePill splitX splitY pill nid = [pill] := by
  simp only [splitOnePill]
  rw [if_pos ⟨hA, hB⟩]

/-- Branch lemma: both axes cross and both are splittable, quadrant split. -/
theorem splitOnePill_quad (splitX splitY : ℚ) (pill : Pill) (nid : Nat)
    (hA : pill.x < splitX ∧ pill.x + pill.w > splitX)
    (hB : pill.y < splitY ∧ pill.y + pill.h > splitY)
    (hC : splitX - pill.x ≥ MIN_SPLIT_SIZE ∧ pill.x + pill.w - splitX ≥ MIN_SPLIT_SIZE)
    (hD : splitY - pill.y ≥ MIN_SPLIT_SIZE ∧ pill.y + pill.h - splitY ≥ MIN_SPLIT_SIZE) :
    splitOnePill splitX splitY pill nid =
      [ { pill with id := nid, w := splitX - pill.x, h := splitY - pill.y },
        { pill with id := nid + 1, x := splitX, w := pill.x + pill.w - splitX,
                    h := splitY - pill.y },
        { pill with id := nid + 2, y := splitY, w := splitX - pill.x,
                    h := pill.y + pill.h - splitY },
        { pill with id := nid + 3, x := splitX, y := splitY,
                    w := pill.x + pill.w - splitX, h := pill.y + pill.h - splitY } ] := by
  simp only [splitOnePill]
  rw [if_neg (by tauto), if_pos ⟨hA, hC.1, hC.2⟩, if_pos ⟨hB, hD.1, hD.2⟩]

/-- Branch lemma: the vertical axis crosses and is splittable but the
horizontal test fails — the pill is split into a left and right child whose
`y` and `h` are the parent's, with no translation on the `y` axis. -/
theorem splitOnePill_vsplit (splitX splitY : ℚ) (pill : Pill) (nid : Nat)
    (hA : pill.x < splitX ∧ pill.x + pill.w > splitX)
    (hC : splitX - pill.x ≥ MIN_SPLIT_SIZE ∧ pill.x + pill.w - splitX ≥ MIN_SPLIT_SIZE)
    (hBD : ¬((pill.y < splitY ∧ pill.y + pill.h > splitY) ∧
      splitY - pill.y ≥ MIN_SPLIT_SIZE ∧ pill.y + pill.h - splitY ≥ MIN_SPLIT_SIZE)) :
    splitOnePill splitX splitY pill nid =
      [ { pill with id := nid, w := splitX - pill.x },
        { pill with id := nid + 1, x := splitX, w := pill.x + pill.w - splitX } ] := by
  simp only [splitOnePill]
  rw [if_neg (by tauto), if_pos ⟨hA, hC.1, hC.2⟩, if_neg (by tauto)]

/-- Branch lemma: the vertical split test fails (either no vertical crossing
or a too-small side) while the horizontal axis crosses and is splittable —
the pill is split into a top and bottom child whose `x` and `w` are the
parent's, with no translation on the `x` axis. -/
theorem splitOnePill_hsplit (splitX splitY : ℚ) (pill : Pill) (nid : Nat)
    (hAC : ¬((pill.x < splitX ∧ pill.x + pill.w > splitX) ∧
      splitX - pill.x ≥ MIN_SPLIT_SIZE ∧ pill.x + pill.w - splitX ≥ MIN_SPLIT_SIZE))
    (hB : pill.y < splitY ∧ pill.y + pill.h > splitY)
    (hD : splitY - pill.y ≥ MIN_SPLIT_SIZE ∧ pill.y + pill.h - splitY ≥ MIN_SPLIT_SIZE) :
    splitOnePill splitX splitY pill nid =
      [ { pill with id := nid, h := splitY - pill.y },
        { pill with id := nid + 1, y := splitY, h := pill.y + pill.h - splitY } ] := by
  simp only [splitOnePill]
  rw [if_neg (by tauto), if_neg (by tauto), if_pos ⟨hB, hD.1, hD.2⟩]

/-- Branch lemma: at least one axis crosses but no crossing axis is
splittable — the pill is moved aside on each crossing axis, by `2` past the
line or `2 + extent` short of it, keeping `id`, `color`, `w` and `h`. -/
theorem splitOnePill_nudge (splitX splitY : ℚ) (pill : Pill) (nid : Nat)
    (hAB : (pill.x < splitX ∧ pill.x + pill.w > splitX) ∨
      (pill.y < splitY ∧ pill.y + pill.h > splitY))
    (hAC : ¬((pill.x < splitX ∧ pill.x + pill.w > splitX) ∧
      splitX - pill.x ≥ MIN_SPLIT_SIZE ∧ pill.x + pill.w - splitX ≥ MIN_SPLIT_SIZE))
    (hBD : ¬((pill.y < splitY ∧ pill.y + pill.h > splitY) ∧
      splitY - pill.y ≥ MIN_SPLIT_SIZE ∧ pill.y + pill.h - splitY ≥ MIN_SPLIT_SIZE)) :
    splitOnePill splitX splitY pill nid =
      [ { pill with
          x := if pill.x < splitX ∧ pill.x + pill.w > splitX then
              (if pill.x + pill.w / 2 < splitX then splitX - pill.w - 2 else splitX + 2)
            else pill.x,
          y := if pill.y < splitY ∧ pill.y + pill.h > splitY then
              (if pill.y + pill.h / 2 < splitY then splitY - pill.h - 2 else splitY + 2)
            else pill.y } ] := by
  simp only [splitOnePill]
  rw [if_neg (by tauto), if_neg (by tauto), if_neg (by tauto)]

end Flat

namespace Round

/-- The guard of the vertical branch of `splitPillPart` is false when both
prospective extents strictly exceed `MIN_PART_SIZE`. -/
theorem vertical_guard_false (part : PillPart) (splitAt : ℚ)
    (h1 : MIN_PART_SIZE < splitAt - part.x)
    (h2 : MIN_PART_SIZE < part.x + part.width - splitAt) :
    ¬(part.width < 2 * MIN_PART_SIZE ∨ splitAt ≤ part.x + MIN_PART_SIZE ∨
      splitAt ≥ part.x + part.width - MIN_PART_SIZE) := by
  push_neg
  refine ⟨by linarith, by linarith, by linarith⟩

/-- The guard of the horizontal branch of `splitPillPart` is false when both
prospective extents strictly exceed `MIN_PART_SIZE`. -/
theorem horizontal_guard_false (part : PillPart) (splitAt : ℚ)
    (h1 : MIN_PART_SIZE < splitAt - part.y)
    (h2 : MIN_PART_SIZE < part.y + part.height - splitAt) :
    ¬(part.height < 2 * MIN_PART_SIZE ∨ splitAt ≤ part.y + MIN_PART_SIZE ∨
      splitAt ≥ part.y + part.height - MIN_PART_SIZE) := by
  push_neg
  refine ⟨by linarith, by linarith, by linarith⟩

/-- Branch lemma: a vertical split whose guard holds returns the part. -/
theorem splitPillPart_vertical_single (part : PillPart) (splitAt : ℚ) (nid : Nat)
    (h : part.width < 2 * MIN_PART_SIZE ∨ splitAt ≤ part.x + MIN_PART_SIZE ∨
      splitAt ≥ part.x + part.width - MIN_PART_SIZE) :
    splitPillPart part .vertical splitAt nid = [part] := by
  simp only [splitPillPart]
  rw [if_pos h]

/-- Branch lemma: a horizontal split whose guard holds returns the part. -/
theorem splitPillPart_horizontal_single (part : PillPart) (splitAt : ℚ) (nid : Nat)
    (h : part.height < 2 * MIN_PART_SIZE ∨ splitAt ≤ part.y + MIN_PART_SIZE ∨
      splitAt ≥ part.y + part.height - MIN_PART_SIZE) :
    splitPillPart part .horizontal splitAt nid = [part] := by
  simp only [splitPillPart]
  rw [if_pos h]

/-- Branch lemma: a vertical split with both extents strictly above
`MIN_PART_SIZE` returns the left and right cut parts. -/
theorem splitPillPart_vertical_two (part : PillPart) (splitAt : ℚ) (nid : Nat)
    (h1 : MIN_PART_SIZE < splitAt - part.x)
    (h2 : MIN_PART_SIZE < part.x + part.width - splitAt) :
    splitPillPart part .vertical splitAt nid =
      [ { part with id := nid, width := splitAt - part.x,
                    borderRadius := (splitBorderRadius part .vertical).1 },
        { part with id := nid + 1, x := splitAt, width := part.width - (splitAt - part.x),
                    borderRadius := (splitBorderRadius part .vertical).2 } ] := by
  simp only [splitPillPart]
  rw [if_neg (vertical_guard_false part splitAt h1 h2)]

/-- Branch lemma: a horizontal split with both extents strictly above
`MIN_PART_SIZE` returns the top and bottom cut parts. -/
theorem splitPillPart_horizontal_two (part : PillPart) (splitAt : ℚ) (nid : Nat)
    (h1 : MIN_PART_SIZE < splitAt - part.y)
    (h2 : MIN_PART_SIZE < part.y + part.height - splitAt) :
    splitPillPart part .horizontal splitAt nid =
      [ { part with id := nid, height := splitAt - part.y,
                    borderRadius := (splitBorderRadius part .horizontal).1 },
        { part with id := nid + 1, y := splitAt, height := part.height - (splitAt - part.y),
                    borderRadius := (splitBorderRadius part .horizontal).2 } ] := by
  simp only [splitPillPart]
  rw [if_neg (horizontal_guard_false part splitAt h1 h2)]

/-- `splitPillPart` along a vertical line yields two parts exactly when both
prospective extents strictly exceed `MIN_PART_SIZE`. -/
theorem splitPillPart_vertical_length_two_iff (part : PillPart) (splitAt : ℚ) (nid : Nat) :
    (splitPillPart part .vertical splitAt nid).length = 2 ↔
      MIN_PART_SIZE < splitAt - part.x ∧ MIN_PART_SIZE < part.x + part.width - splitAt := by
  by_cases h : part.width < 2 * MIN_PART_SIZE ∨ splitAt ≤ part.x + MIN_PART_SIZE ∨
      splitAt ≥ part.x + part.width - MIN_PART_SIZE
  · rw [splitPillPart_vertical_single part splitAt nid h]
    simp only [List.length_singleton]
    constructor
    · intro hh
      exact absurd hh (by norm_num)
    · rintro ⟨h1, h2⟩
      rcases h with h | h | h <;> linarith
  · push_neg at h
    obtain ⟨hw, hl, hr⟩ := h
    have h1 : MIN_PART_SIZE < splitAt - part.x := by linarith
    have h2 : MIN_PART_SIZE < part.x + part.width - splitAt := by linarith
    rw [splitPillPart_vertical_two part splitAt nid h1 h2]
    simp only [List.length_cons, List.length_nil]
    exact iff_of_true trivial ⟨h1, h2⟩

/-- `splitPillPart` along a horizontal line yields two parts exactly when
both prospective extents strictly exceed `MIN_PART_SIZE`. -/
theorem splitPillPart_horizontal_length_two_iff (part : PillPart) (splitAt : ℚ) (nid : Nat) :
    (splitPillPart part .horizontal splitAt nid).length = 2 ↔
      MIN_PART_SIZE < splitAt - part.y ∧ MIN_PART_SIZE < part.y + part.height - splitAt := by
  by_cases h : part.height < 2 * MIN_PART_SIZE ∨ splitAt ≤ part.y + MIN_PART_SIZE ∨
      splitAt ≥ part.y + part.height - MIN_PART_SIZE
  · rw [splitPillPart_horizontal_single part splitAt nid h]
    simp only [List.length_singleton]
    constructor
    · intro hh
      exact absurd hh (by norm_num)
    · rintro ⟨h1, h2⟩
      rcases h with h | h | h <;> linarith
  · push_neg at h
    obtain ⟨hw, hl, hr⟩ := h
    have h1 : MIN_PART_SIZE < splitAt - part.y := by linarith
    have h2 : MIN_PART_SIZE < part.y + part.height - splitAt := by linarith
    rw [splitPillPart_horizontal_two part splitAt nid h1 h2]
    simp only [List.length_cons, List.length_nil]
    exact iff_of_true trivial ⟨h1, h2⟩

/-- Branch lemma: a pill neither split line crosses passes through
`onSingleClick`'s loop unchanged. -/
theorem splitOnePart_pass (cw ch splitX splitY : ℚ) (pill : PillPart) (nid : Nat)
    (hV : ¬(pill.x < splitX ∧ pill.x + pill.width > splitX))
    (hH : ¬(pill.y < splitY ∧ pill.y + pill.height > splitY)) :
    splitOnePart cw ch splitX splitY pill nid = [pill] := by
  simp only [splitOnePart]
  rw [if_neg (by tauto), if_neg hV, if_neg hH]

/-- Branch lemma: both lines cross but the vertical split fails — the pill
is only moved aside on the `x` axis, regardless of whether the horizontal
split would have succeeded. -/
theorem splitOnePart_vnudge (cw ch splitX splitY : ℚ) (pill : PillPart) (nid : Nat)
    (hV : pill.x < splitX ∧ pill.x + pill.width > splitX)
    (hH : pill.y < splitY ∧ pill.y + pill.height > splitY)
    (hguard : pill.width < 2 * MIN_PART_SIZE ∨ splitX ≤ pill.x + MIN_PART_SIZE ∨
      splitX ≥ pill.x + pill.width - MIN_PART_SIZE) :
    splitOnePart cw ch splitX splitY pill nid =
      [movePartAside cw ch pill .vertical splitX] := by
  simp only [splitOnePart]
  rw [if_pos ⟨hV, hH⟩, splitPillPart_vertical_single pill splitX nid hguard]

/-- Branch lemma: both lines cross, the vertical split succeeds (strict
extents) but the horizontal split of the resulting parts fails — each of
the two vertical children is moved aside on the `y` axis. -/
theorem splitOnePart_vsplit_hnudge (cw ch splitX splitY : ℚ) (pill : PillPart) (nid : Nat)
    (hV : pill.x < splitX ∧ pill.x + pill.width > splitX)
    (hH : pill.y < splitY ∧ pill.y + pill.height > splitY)
    (h1 : MIN_PART_SIZE < splitX - pill.x)
    (h2 : MIN_PART_SIZE < pill.x + pill.width - splitX)
    (hguard : pill.height < 2 * MIN_PART_SIZE ∨ splitY ≤ pill.y + MIN_PART_SIZE ∨
      splitY ≥ pill.y + pill.height - MIN_PART_SIZE) :
    splitOnePart cw ch splitX splitY pill nid =
      [ movePartAside cw ch
          { pill with id := nid, width := splitX - pill.x,
                      borderRadius := (splitBorderRadius pill .vertical).1 }
          .horizontal splitY,
        movePartAside cw ch
          { pill with id := nid + 1, x := splitX, width := pill.width - (splitX - pill.x),
                      borderRadius := (splitBorderRadius pill .vertical).2 }
          .horizontal splitY ] := by
  simp only [splitOnePart]
  rw [if_pos ⟨hV, hH⟩, splitPillPart_vertical_two pill splitX nid h1 h2]
  dsimp only
  rw [splitPillPart_horizontal_single
      { pill with id := nid, width := splitX - pill.x,
                  borderRadius := (splitBorderRadius pill .vertical).1 }
      splitY (nid + 2) hguard,
    splitPillPart_horizontal_single
      { pill with id := nid + 1, x := splitX, width := pill.width - (splitX - pill.x),
                  borderRadius := (splitBorderRadius pill .vertical).2 }
      splitY (nid + 4) hguard]
  rfl

/-- Branch lemma: both lines cross and both splits succeed with strict
extents — the pill is replaced by four quadrant children. -/
theorem splitOnePart_quad (cw ch splitX splitY : ℚ) (pill : PillPart) (nid : Nat)
    (hV : pill.x < splitX ∧ pill.x + pill.width > splitX)
    (hH : pill.y < splitY ∧ pill.y + pill.height > splitY)
    (h1 : MIN_PART_SIZE < splitX - pill.x)
    (h2 : MIN_PART_SIZE < pill.x + pill.width - splitX)
    (h3 : MIN_PART_SIZE < splitY - pill.y)
    (h4 : MIN_PART_SIZE < pill.y + pill.height - splitY) :
    splitOnePart cw ch splitX splitY pill nid =
      splitPillPart
        { pill with id := nid, width := splitX - pill.x,
                    borderRadius := (splitBorderRadius pill .vertical).1 }
        .horizontal splitY (nid + 2) ++
      splitPillPart
        { pill with id := nid + 1, x := splitX, width := pill.width - (splitX - pill.x),
                    borderRadius := (splitBorderRadius pill .vertical).2 }
        .horizontal splitY (nid + 4) := by
  simp only [splitOnePart]
  rw [if_pos ⟨hV, hH⟩, splitPillPart_vertical_two pill splitX nid h1 h2]
  dsimp only
  rw [splitPillPart_horizontal_two
      { pill with id := nid, width := splitX - pill.x,
                  borderRadius := (splitBorderRadius pill .vertical).1 }
      splitY (nid + 2) h3 h4,
    splitPillPart_horizontal_two
      { pill with id := nid + 1, x := splitX, width := pill.width - (splitX - pill.x),
                  borderRadius := (splitBorderRadius pill .vertical).2 }
      splitY (nid + 4) h3 h4]

end Round

/-- C3: splitting the shape `{x:0, y:0, width:100, height:100}` at the point
`(40, 60)` with minimum splittable size 20 replaces it with exactly four
children `{0,0,40,60}`, `{40,0,60,60}`, `{0,60,40,40}`, `{40,60,60,40}`
(position, size), all four having the parent's color and four distinct fresh
ids. -/
theorem C3_quadrant_example :
    Flat.splitPillsAt 40 60 [⟨0, 0, 0, 100, 100, "teal"⟩] 1 =
      [⟨1, 0, 0, 40, 60, "teal"⟩, ⟨2, 40, 0, 60, 60, "teal"⟩,
       ⟨3, 0, 60, 40, 40, "teal"⟩, ⟨4, 40, 60, 60, 40, "teal"⟩] ∧
    ((Flat.splitPillsAt 40 60 [⟨0, 0, 0, 100, 100, "teal"⟩] 1).map Flat.Pill.id).Nodup ∧
    ∀ q ∈ Flat.splitPillsAt 40 60 [⟨0, 0, 0, 100, 100, "teal"⟩] 1,
      q.color = "teal" ∧ q.id ≠ 0 := by
  have h : Flat.splitPillsAt 40 60 [⟨0, 0, 0, 100, 100, "teal"⟩] 1 =
      [⟨1, 0, 0, 40, 60, "teal"⟩, ⟨2, 40, 0, 60, 60, "teal"⟩,
       ⟨3, 0, 60, 40, 40, "teal"⟩, ⟨4, 40, 60, 60, 40, "teal"⟩] := by
    norm_num [Flat.splitPillsAt, Flat.splitOnePill, Flat.MIN_SPLIT_SIZE]
  refine ⟨h, ?_, ?_⟩
  · rw [h]
    decide
  · rw [h]
    intro q hq
    fin_cases hq <;> simp

/-- C7: for every shape for which the split point strictly crosses both axes
and both axes are splittable, the sum of the areas of the four produced
children equals the area of the parent shape exactly, in both engine
variants (arithmetic is modelled over exact rationals). -/
theorem C7_area_conservation :
    (∀ (splitX splitY : ℚ) (pill : Flat.Pill) (nid : Nat),
      pill.x < splitX ∧ pill.x + pill.w > splitX →
      pill.y < splitY ∧ pill.y + pill.h > splitY →
      splitX - pill.x ≥ Flat.MIN_SPLIT_SIZE ∧ pill.x + pill.w - splitX ≥ Flat.MIN_SPLIT_SIZE →
      splitY - pill.y ≥ Flat.MIN_SPLIT_SIZE ∧ pill.y + pill.h - splitY ≥ Flat.MIN_SPLIT_SIZE →
      ((Flat.splitOnePill splitX splitY pill nid).map (fun q => q.w * q.h)).sum =
        pill.w * pill.h) ∧
    (∀ (cw ch splitX splitY : ℚ) (pill : Round.PillPart) (nid : Nat),
      pill.x < splitX ∧ pill.x + pill.width > splitX →
      pill.y < splitY ∧ pill.y + pill.height > splitY →
      Round.MIN_PART_SIZE < splitX - pill.x →
      Round.MIN_PART_SIZE < pill.x + pill.width - splitX →
      Round.MIN_PART_SIZE < splitY - pill.y →
      Round.MIN_PART_SIZE < pill.y + pill.height - splitY →
      ((Round.splitOnePart cw ch splitX splitY pill nid).map
        (fun q => q.width * q.height)).sum = pill.width * pill.height) := by
  constructor
  · intro splitX splitY pill nid hA hB hC hD
    rw [Flat.splitOnePill_quad splitX splitY pill nid hA hB hC hD]
    simp only [List.map_cons, List.map_nil, List.sum_cons, List.sum_nil]
    ring
  · intro cw ch splitX splitY pill nid hV hH h1 h2 h3 h4
    rw [Round.splitOnePart_quad cw ch splitX splitY pill nid hV hH h1 h2 h3 h4,
      Round.splitPillPart_horizontal_two
        { pill with id := nid, width := splitX - pill.x,
                    borderRadius := (Round.splitBorderRadius pill .vertical).1 }
        splitY (nid + 2) h3 h4,
      Round.splitPillPart_horizontal_two
        { pill with id := nid + 1, x := splitX, width := pill.width - (splitX - pill.x),
                    borderRadius := (Round.splitBorderRadius pill .vertical).2 }
        splitY (nid + 4) h3 h4]
    simp only [List.map_append, List.map_cons, List.map_nil, List.sum_append,
      List.sum_cons, List.sum_nil]
    ring

/-- C7 witness: quadrant splits of a 100×100 shape conserve area (10000) in
both variants. -/
theorem C7_area_conservation_witness :
    ((Flat.splitOnePill 40 60 ⟨0, 0, 0, 100, 100, "c"⟩ 1).map (fun q => q.w * q.h)).sum =
      (100 : ℚ) * 100 ∧
    ((Round.splitOnePart 1000 1000 41 59 ⟨0, 0, 0, 100, 100, "c", ⟨true, true, true, true⟩, none⟩ 1).map
      (fun q => q.width * q.height)).sum = (100 : ℚ) * 100 :=
  ⟨C7_area_conservation.1 40 60 ⟨0, 0, 0, 100, 100, "c"⟩ 1
      (by norm_num) (by norm_num)
      (by norm_num [Flat.MIN_SPLIT_SIZE]) (by norm_num [Flat.MIN_SPLIT_SIZE]),
   C7_area_conservation.2 1000 1000 41 59 ⟨0, 0, 0, 100, 100, "c", ⟨true, true, true, true⟩, none⟩ 1
      (by norm_num) (by norm_num)
      (by norm_num [Round.MIN_PART_SIZE]) (by norm_num [Round.MIN_PART_SIZE])
      (by norm_num [Round.MIN_PART_SIZE]) (by norm_num [Round.MIN_PART_SIZE])⟩

/-- C8: for every shape such that the split point is not strictly inside the
shape's extent on either axis (a split point exactly on the boundary
included), the split operation of either variant leaves that shape
field-for-field unchanged. -/
theorem C8_no_cross_unchanged :
    (∀ (splitX splitY : ℚ) (pill : Flat.Pill) (nid : Nat),
      ¬(pill.x < splitX ∧ pill.x + pill.w > splitX) →
      ¬(pill.y < splitY ∧ pill.y + pill.h > splitY) →
      Flat.splitOnePill splitX splitY pill nid = [pill]) ∧
    (∀ (cw ch splitX splitY : ℚ) (pill : Round.PillPart) (nid : Nat),
      ¬(pill.x < splitX ∧ pill.x + pill.width > splitX) →
      ¬(pill.y < splitY ∧ pill.y + pill.height > splitY) →
      Round.splitOnePart cw ch splitX splitY pill nid = [pill]) :=
  ⟨fun splitX splitY pill nid hA hB => Flat.splitOnePill_pass splitX splitY pill nid hA hB,
   fun cw ch splitX splitY pill nid hV hH => Round.splitOnePart_pass cw ch splitX splitY pill nid hV hH⟩

/-- C8 witness: a split point lying exactly on a shape's boundary (here the
left edge `x = 10` and the bottom edge `y = 40`) leaves the shape unchanged
in both variants. -/
theorem C8_no_cross_unchanged_witness :
    Flat.splitOnePill 10 40 ⟨7, 10, 10, 30, 30, "c"⟩ 5 = [⟨7, 10, 10, 30, 30, "c"⟩] ∧
    Round.splitOnePart 1000 1000 10 40 ⟨7, 10, 10, 30, 30, "c", ⟨true, true, true, true⟩, none⟩ 5 =
      [⟨7, 10, 10, 30, 30, "c", ⟨true, true, true, true⟩, none⟩] :=
  ⟨C8_no_cross_unchanged.1 10 40 ⟨7, 10, 10, 30, 30, "c"⟩ 5
      (by norm_num) (by norm_num),
   C8_no_cross_unchanged.2 1000 1000 10 40 ⟨7, 10, 10, 30, 30, "c", ⟨true, true, true, true⟩, none⟩ 5
      (by norm_num) (by norm_num)⟩

/-- C9: in the corner-rounding variant, each child of a split inherits the
parent's rounding flags exactly on the corners that stay on the parent's
outer boundary and is square on the corners created by the cut: a vertical
split gives the left child only the parent's top-left and bottom-left
rounding and the right child only the parent's top-right and bottom-right
rounding, and symmetrically for a horizontal split. -/
theorem C9_rounding_inheritance :
    (∀ (part : Round.PillPart) (splitAt : ℚ) (nid : Nat),
      Round.MIN_PART_SIZE < splitAt - part.x →
      Round.MIN_PART_SIZE < part.x + part.width - splitAt →
      Round.splitPillPart part .vertical splitAt nid =
        [ { part with id := nid, width := splitAt - part.x,
                      borderRadius := ⟨part.borderRadius.topLeft, false,
                        part.borderRadius.bottomLeft, false⟩ },
          { part with id := nid + 1, x := splitAt, width := part.width - (splitAt - part.x),
                      borderRadius := ⟨false, part.borderRadius.topRight, false,
                        part.borderRadius.bottomRight⟩ } ]) ∧
    (∀ (part : Round.PillPart) (splitAt : ℚ) (nid : Nat),
      Round.MIN_PART_SIZE < splitAt - part.y →
      Round.MIN_PART_SIZE < part.y + part.height - splitAt →
      Round.splitPillPart part .horizontal splitAt nid =
        [ { part with id := nid, height := splitAt - part.y,
                      borderRadius := ⟨part.borderRadius.topLeft,
                        part.borderRadius.topRight, false, false⟩ },
          { part with id := nid + 1, y := splitAt, height := part.height - (splitAt - part.y),
                      borderRadius := ⟨false, false, part.borderRadius.bottomLeft,
                        part.borderRadius.bottomRight⟩ } ]) := by
  constructor
  · intro part splitAt nid h1 h2
    rw [Round.splitPillPart_vertical_two part splitAt nid h1 h2]
    simp [Round.splitBorderRadius]
  · intro part splitAt nid h1 h2
    rw [Round.splitPillPart_horizontal_two part splitAt nid h1 h2]
    simp [Round.splitBorderRadius]

/-- C9 witness: splitting a 100×50 part with rounded top-left and
bottom-left corners vertically at 50 gives a left child keeping exactly
those two flags and a right child with all corners square except the
parent's (absent) right roundings. -/
theorem C9_rounding_inheritance_witness :
    Round.splitPillPart ⟨3, 0, 0, 100, 50, "c", ⟨true, false, true, false⟩, none⟩
        .vertical 50 8 =
      [⟨8, 0, 0, 50, 50, "c", ⟨true, false, true, false⟩, none⟩,
       ⟨9, 50, 0, 50, 50, "c", ⟨false, false, false, false⟩, none⟩] := by
  have h := C9_rounding_inheritance.1
    ⟨3, 0, 0, 100, 50, "c", ⟨true, false, true, false⟩, none⟩ 50 8
    (by norm_num [Round.MIN_PART_SIZE]) (by norm_num [Round.MIN_PART_SIZE])
  norm_num at h
  exact h

/-- C1 counterexample: a 100×30 shape split at `(50, 15)` crosses both axes,
the vertical axis is splittable (50/50) and the horizontal one is not
(15 < 20); the flat-color engine returns two vertical children whose `y`
and `h` are unchanged, so both children still straddle the horizontal split
line `y = 15` — they are not nudged to one side of it. -/
theorem C1_counterexample :
    Flat.splitOnePill 50 15 ⟨0, 0, 0, 100, 30, "c"⟩ 1 =
      [⟨1, 0, 0, 50, 30, "c"⟩, ⟨2, 50, 0, 50, 30, "c"⟩] ∧
    ((0 : ℚ) < 15 ∧ (15 : ℚ) < 0 + 30) := by
  constructor
  · norm_num [Flat.splitOnePill, Flat.MIN_SPLIT_SIZE]
  · norm_num

/-- C1 amended: when a shape crosses both axes and exactly one passes the
splittability test, the flat-color engine splits along the splittable axis
into two children that keep the parent's position and extent on the other
axis (possibly straddling the unsplittable line, with no nudge); the
rounding engine splits vertically and moves each child aside on the `y`
axis when only the vertical cut is splittable, but when the vertical cut is
unsplittable it does not split at all and only moves the shape aside on the
`x` axis. -/
theorem C1_amended_split_and_nudge :
    (∀ (splitX splitY : ℚ) (pill : Flat.Pill) (nid : Nat),
      pill.x < splitX ∧ pill.x + pill.w > splitX →
      pill.y < splitY ∧ pill.y + pill.h > splitY →
      splitX - pill.x ≥ Flat.MIN_SPLIT_SIZE ∧ pill.x + pill.w - splitX ≥ Flat.MIN_SPLIT_SIZE →
      ¬(splitY - pill.y ≥ Flat.MIN_SPLIT_SIZE ∧ pill.y + pill.h - splitY ≥ Flat.MIN_SPLIT_SIZE) →
      Flat.splitOnePill splitX splitY pill nid =
        [ { pill with id := nid, w := splitX - pill.x },
          { pill with id := nid + 1, x := splitX, w := pill.x + pill.w - splitX } ]) ∧
    (∀ (cw ch splitX splitY : ℚ) (pill : Round.PillPart) (nid : Nat),
      pill.x < splitX ∧ pill.x + pill.width > splitX →
      pill.y < splitY ∧ pill.y + pill.height > splitY →
      Round.MIN_PART_SIZE < splitX - pill.x →
      Round.MIN_PART_SIZE < pill.x + pill.width - splitX →
      (pill.height < 2 * Round.MIN_PART_SIZE ∨ splitY ≤ pill.y + Round.MIN_PART_SIZE ∨
        splitY ≥ pill.y + pill.height - Round.MIN_PART_SIZE) →
      Round.splitOnePart cw ch splitX splitY pill nid =
        [ Round.movePartAside cw ch
            { pill with id := nid, width := splitX - pill.x,
                        borderRadius := (Round.splitBorderRadius pill .vertical).1 }
            .horizontal splitY,
          Round.movePartAside cw ch
            { pill with id := nid + 1, x := splitX, width := pill.width - (splitX - pill.x),
                        borderRadius := (Round.splitBorderRadius pill .vertical).2 }
            .horizontal splitY ]) ∧
    (∀ (cw ch splitX splitY : ℚ) (pill : Round.PillPart) (nid : Nat),
      pill.x < splitX ∧ pill.x + pill.width > splitX →
      pill.y < splitY ∧ pill.y + pill.height > splitY →
      (pill.width < 2 * Round.MIN_PART_SIZE ∨ splitX ≤ pill.x + Round.MIN_PART_SIZE ∨
        splitX ≥ pill.x + pill.width - Round.MIN_PART_SIZE) →
      Round.splitOnePart cw ch splitX splitY pill nid =
        [Round.movePartAside cw ch pill .vertical splitX]) := by
  refine ⟨?_, ?_, ?_⟩
  · intro splitX splitY pill nid hA hB hC hBD
    exact Flat.splitOnePill_vsplit splitX splitY pill nid hA ⟨hC.1, hC.2⟩
      (fun hBoth => hBD hBoth.2)
  · intro cw ch splitX splitY pill nid hV hH h1 h2 hguard
    exact Round.splitOnePart_vsplit_hnudge cw ch splitX splitY pill nid hV hH h1 h2 hguard
  · intro cw ch splitX splitY pill nid hV hH hguard
    exact Round.splitOnePart_vnudge cw ch splitX splitY pill nid hV hH hguard

/-- C1 witness: a 100×44 flat pill split at `(50, 10)` is split vertically
with `y`/`h` untouched; a 100×30 rounded part split at `(50, 15)` is split
vertically and each child moved aside on `y`; a 30×100 rounded part split
at `(15, 50)` is not split, only moved aside on `x`. -/
theorem C1_amended_split_and_nudge_witness :
    Flat.splitOnePill 50 10 ⟨0, 0, 0, 100, 44, "c"⟩ 1 =
      [⟨1, 0, 0, 50, 44, "c"⟩, ⟨2, 50, 0, 50, 44, "c"⟩] ∧
    Round.splitOnePart 1000 1000 50 15 ⟨0, 0, 0, 100, 30, "c", ⟨true, true, true, true⟩, none⟩ 1 =
      [ Round.movePartAside 1000 1000
          ⟨1, 0, 0, 50, 30, "c", ⟨true, false, true, false⟩, none⟩ .horizontal 15,
        Round.movePartAside 1000 1000
          ⟨2, 50, 0, 50, 30, "c", ⟨false, true, false, true⟩, none⟩ .horizontal 15 ] ∧
    Round.splitOnePart 1000 1000 15 50 ⟨0, 0, 0, 30, 100, "c", ⟨true, true, true, true⟩, none⟩ 1 =
      [Round.movePartAside 1000 1000
        ⟨0, 0, 0, 30, 100, "c", ⟨true, true, true, true⟩, none⟩ .vertical 15] := by
  refine ⟨?_, ?_, ?_⟩
  · have h := C1_amended_split_and_nudge.1 50 10 ⟨0, 0, 0, 100, 44, "c"⟩ 1
      (by norm_num) (by norm_num)
      (by norm_num [Flat.MIN_SPLIT_SIZE]) (by norm_num [Flat.MIN_SPLIT_SIZE])
    norm_num at h
    exact h
  · have h := C1_amended_split_and_nudge.2.1 1000 1000 50 15
      ⟨0, 0, 0, 100, 30, "c", ⟨true, true, true, true⟩, none⟩ 1
      (by norm_num) (by norm_num)
      (by norm_num [Round.MIN_PART_SIZE]) (by norm_num [Round.MIN_PART_SIZE])
      (by norm_num [Round.MIN_PART_SIZE])
    norm_num [Round.splitBorderRadius] at h
    exact h
  · exact C1_amended_split_and_nudge.2.2 1000 1000 15 50
      ⟨0, 0, 0, 30, 100, "c", ⟨true, true, true, true⟩, none⟩ 1
      (by norm_num) (by norm_num)
      (Or.inl (by norm_num [Round.MIN_PART_SIZE]))

/-- C2 counterexample: in the corner-rounding variant a part `{x:0, width:40}`
crossed vertically at `splitAt = 20` has both prospective extents exactly
equal to the minimum splittable size 20, yet `splitPillPart` refuses the
split and returns the part unchanged — the claim says such a crossing must
be split into two children. -/
theorem C2_counterexample :
    Round.splitPillPart ⟨0, 0, 0, 40, 50, "c", ⟨true, true, true, true⟩, none⟩
        .vertical 20 1 =
      [⟨0, 0, 0, 40, 50, "c", ⟨true, true, true, true⟩, none⟩] ∧
    (20 - 0 : ℚ) = Round.MIN_PART_SIZE ∧ (0 + 40 - 20 : ℚ) = Round.MIN_PART_SIZE ∧
    ((0 : ℚ) < 20 ∧ (20 : ℚ) < 0 + 40) := by
  refine ⟨?_, by norm_num [Round.MIN_PART_SIZE], by norm_num [Round.MIN_PART_SIZE], by norm_num⟩
  norm_num [Round.splitPillPart, Round.MIN_PART_SIZE]

/-- C2 amended: the two variants disagree at the boundary. In the flat-color
engine a strictly crossing axis is split exactly when both resulting extents
are `≥ MIN_SPLIT_SIZE` (equality splits); in the corner-rounding engine a
part is split exactly when both resulting extents are strictly greater than
`MIN_PART_SIZE` (equality does not split). -/
theorem C2_amended_splittable_iff :
    (∀ (splitX splitY : ℚ) (pill : Flat.Pill) (nid : Nat),
      pill.x < splitX ∧ pill.x + pill.w > splitX →
      ¬(pill.y < splitY ∧ pill.y + pill.h > splitY) →
      ((Flat.splitOnePill splitX splitY pill nid).length = 2 ↔
        Flat.MIN_SPLIT_SIZE ≤ splitX - pill.x ∧
          Flat.MIN_SPLIT_SIZE ≤ pill.x + pill.w - splitX)) ∧
    (∀ (splitX splitY : ℚ) (pill : Flat.Pill) (nid : Nat),
      ¬(pill.x < splitX ∧ pill.x + pill.w > splitX) →
      pill.y < splitY ∧ pill.y + pill.h > splitY →
      ((Flat.splitOnePill splitX splitY pill nid).length = 2 ↔
        Flat.MIN_SPLIT_SIZE ≤ splitY - pill.y ∧
          Flat.MIN_SPLIT_SIZE ≤ pill.y + pill.h - splitY)) ∧
    (∀ (part : Round.PillPart) (splitAt : ℚ) (nid : Nat),
      ((Round.splitPillPart part .vertical splitAt nid).length = 2 ↔
        Round.MIN_PART_SIZE < splitAt - part.x ∧
          Round.MIN_PART_SIZE < part.x + part.width - splitAt)) ∧
    (∀ (part : Round.PillPart) (splitAt : ℚ) (nid : Nat),
      ((Round.splitPillPart part .horizontal splitAt nid).length = 2 ↔
        Round.MIN_PART_SIZE < splitAt - part.y ∧
          Round.MIN_PART_SIZE < part.y + part.height - splitAt)) := by
  refine ⟨?_, ?_, Round.splitPillPart_vertical_length_two_iff,
    Round.splitPillPart_horizontal_length_two_iff⟩
  · intro splitX splitY pill nid hA hB
    constructor
    · intro hlen
      by_contra hC
      rw [Flat.splitOnePill_nudge splitX splitY pill nid (Or.inl hA)
        (fun hBoth => hC hBoth.2) (fun hBoth => hB hBoth.1)] at hlen
      exact absurd hlen (by norm_num)
    · intro hC
      rw [Flat.splitOnePill_vsplit splitX splitY pill nid hA ⟨hC.1, hC.2⟩
        (fun hBoth => hB hBoth.1)]
      rfl
  · intro splitX splitY pill nid hA hB
    constructor
    · intro hlen
      by_contra hD
      rw [Flat.splitOnePill_nudge splitX splitY pill nid (Or.inr hB)
        (fun hBoth => hA hBoth.1) (fun hBoth => hD hBoth.2)] at hlen
      exact absurd hlen (by norm_num)
    · intro hD
      rw [Flat.splitOnePill_hsplit splitX splitY pill nid
        (fun hBoth => hA hBoth.1) hB ⟨hD.1, hD.2⟩]
      rfl

/-- C2 amended witness: a flat 40-wide pill crossed at its midpoint (both
extents exactly 20) is split into two pieces, and a rounded 41-wide part
crossed at 20.5 (both extents 20.5 > 20) is split into two pieces. -/
theorem C2_amended_splittable_iff_witness :
    (Flat.splitOnePill 20 100 ⟨0, 0, 0, 40, 30, "c"⟩ 1).length = 2 ∧
    (Round.splitPillPart ⟨0, 0, 0, 41, 50, "c", ⟨true, true, true, true⟩, none⟩
      .vertical (41 / 2) 1).length = 2 :=
  ⟨(C2_amended_splittable_iff.1 20 100 ⟨0, 0, 0, 40, 30, "c"⟩ 1
      (by norm_num) (by norm_num)).mpr
      ⟨by norm_num [Flat.MIN_SPLIT_SIZE], by norm_num [Flat.MIN_SPLIT_SIZE]⟩,
   (C2_amended_splittable_iff.2.2.1
      ⟨0, 0, 0, 41, 50, "c", ⟨true, true, true, true⟩, none⟩ (41 / 2) 1).mpr
      ⟨by norm_num [Round.MIN_PART_SIZE], by norm_num [Round.MIN_PART_SIZE]⟩⟩

/-- C4 counterexample: a 30-wide rounded part at `x = 0` crossed by an
unsplittable vertical line at 20 (center 15 < 20) is returned by
`movePartAside` completely unchanged (`x` stays 0 after clamping at the
container edge), so it still straddles the split line instead of lying
wholly on the side of its center, and its far edge is not at
`splitCoordinate - extent - epsilon`. -/
theorem C4_counterexample :
    Round.movePartAside 1000 1000 ⟨0, 0, 0, 30, 50, "c", ⟨true, true, true, true⟩, none⟩
        .vertical 20 =
      ⟨0, 0, 0, 30, 50, "c", ⟨true, true, true, true⟩, none⟩ ∧
    ((Round.movePartAside 1000 1000 ⟨0, 0, 0, 30, 50, "c", ⟨true, true, true, true⟩, none⟩
        .vertical 20).x < 20 ∧
      (20 : ℚ) <
        (Round.movePartAside 1000 1000 ⟨0, 0, 0, 30, 50, "c", ⟨true, true, true, true⟩, none⟩
          .vertical 20).x +
        (Round.movePartAside 1000 1000 ⟨0, 0, 0, 30, 50, "c", ⟨true, true, true, true⟩, none⟩
          .vertical 20).width) := by
  have h : Round.movePartAside 1000 1000 ⟨0, 0, 0, 30, 50, "c", ⟨true, true, true, true⟩, none⟩
      .vertical 20 = ⟨0, 0, 0, 30, 50, "c", ⟨true, true, true, true⟩, none⟩ := by
    norm_num [Round.movePartAside, min_def, max_def]
  refine ⟨h, ?_, ?_⟩ <;> rw [h] <;> norm_num

/-- C4 amended: only the flat-color variant nudges with an epsilon, and only
when no crossing axis is splittable: each crossing axis keeps its extent and
the position becomes `splitCoordinate - extent - 2` when the center is
before the line, else `splitCoordinate + 2`.  The rounding variant's
`movePartAside` keeps the extent and moves the part to abut the line with no
epsilon, clamped into the container (`x := max 0 (min x (splitAt - width))`
on the near side, `x := min splitAt (cw - width)` on the far side), which
can leave the part straddling the line. -/
theorem C4_amended_nudge :
    (∀ (splitX splitY : ℚ) (pill : Flat.Pill) (nid : Nat),
      (pill.x < splitX ∧ pill.x + pill.w > splitX) ∨
        (pill.y < splitY ∧ pill.y + pill.h > splitY) →
      ¬((pill.x < splitX ∧ pill.x + pill.w > splitX) ∧
        splitX - pill.x ≥ Flat.MIN_SPLIT_SIZE ∧
          pill.x + pill.w - splitX ≥ Flat.MIN_SPLIT_SIZE) →
      ¬((pill.y < splitY ∧ pill.y + pill.h > splitY) ∧
        splitY - pill.y ≥ Flat.MIN_SPLIT_SIZE ∧
          pill.y + pill.h - splitY ≥ Flat.MIN_SPLIT_SIZE) →
      Flat.splitOnePill splitX splitY pill nid =
        [ { pill with
            x := if pill.x < splitX ∧ pill.x + pill.w > splitX then
                (if pill.x + pill.w / 2 < splitX then splitX - pill.w - 2 else splitX + 2)
              else pill.x,
            y := if pill.y < splitY ∧ pill.y + pill.h > splitY then
                (if pill.y + pill.h / 2 < splitY then splitY - pill.h - 2 else splitY + 2)
              else pill.y } ]) ∧
    (∀ (cw ch : ℚ) (part : Round.PillPart) (splitAt : ℚ),
      (Round.movePartAside cw ch part .vertical splitAt).width = part.width ∧
      (Round.movePartAside cw ch part .vertical splitAt).height = part.height ∧
      (Round.movePartAside cw ch part .vertical splitAt).y = part.y ∧
      (Round.movePartAside cw ch part .vertical splitAt).x =
        (if part.x + part.width / 2 < splitAt then max 0 (min part.x (splitAt - part.width))
         else min splitAt (cw - part.width))) ∧
    (∀ (cw ch : ℚ) (part : Round.PillPart) (splitAt : ℚ),
      (Round.movePartAside cw ch part .horizontal splitAt).width = part.width ∧
      (Round.movePartAside cw ch part .horizontal splitAt).height = part.height ∧
      (Round.movePartAside cw ch part .horizontal splitAt).x = part.x ∧
      (Round.movePartAside cw ch part .horizontal splitAt).y =
        (if part.y + part.height / 2 < splitAt then max 0 (min part.y (splitAt - part.height))
         else min splitAt (ch - part.height))) := by
  refine ⟨Flat.splitOnePill_nudge, ?_, ?_⟩
  · intro cw ch part splitAt
    simp only [Round.movePartAside]
    split_ifs <;> simp
  · intro cw ch part splitAt
    simp only [Round.movePartAside]
    split_ifs <;> simp

/-- C4 amended witness: a 25×25 flat pill fully straddling `(15, 15)` is
nudged to `(-12, -12)` (epsilon 2 on each axis); a 30-wide rounded part at
`x = 100` crossed at 120 keeps its width and moves to `x = 90`, abutting the
line with no epsilon. -/
theorem C4_amended_nudge_witness :
    Flat.splitOnePill 15 15 ⟨0, 0, 0, 25, 25, "c"⟩ 1 = [⟨0, -12, -12, 25, 25, "c"⟩] ∧
    ((Round.movePartAside 1000 1000 ⟨5, 100, 0, 30, 50, "c", ⟨true, true, true, true⟩, none⟩
        .vertical 120).width = 30 ∧
      (Round.movePartAside 1000 1000 ⟨5, 100, 0, 30, 50, "c", ⟨true, true, true, true⟩, none⟩
        .vertical 120).x = 90) := by
  refine ⟨?_, ?_, ?_⟩
  · have h := C4_amended_nudge.1 15 15 ⟨0, 0, 0, 25, 25, "c"⟩ 1
      (Or.inl (by norm_num))
      (by rintro ⟨-, hc, -⟩; norm_num [Flat.MIN_SPLIT_SIZE] at hc)
      (by rintro ⟨-, hc, -⟩; norm_num [Flat.MIN_SPLIT_SIZE] at hc)
    norm_num at h
    exact h
  · have h := (C4_amended_nudge.2.1 1000 1000
      ⟨5, 100, 0, 30, 50, "c", ⟨true, true, true, true⟩, none⟩ 120).1
    norm_num at h
    exact h
  · have h := (C4_amended_nudge.2.1 1000 1000
      ⟨5, 100, 0, 30, 50, "c", ⟨true, true, true, true⟩, none⟩ 120).2.2.2
    norm_num [min_def, max_def] at h
    exact h

/-- C5: the flat-color variant discards a draw gesture whose rectangle is
below the minimum draw size in either dimension; the corner-rounding
variant does not — its preview is clamped up to `MIN_PILL_SIZE`, so its
"too small" check can never fail: a 5×5 drag from `(100, 100)` to
`(105, 105)` still commits a 40×40 pill, contradicting the claim (and the
source's own "Too small, just remove drawing pill" branch, which is dead
code). -/
theorem C5_draw_below_minimum :
    (∀ (sx sy ex ey : ℚ) (pills : List Flat.Pill) (nid : Nat) (color : String),
      |ex - sx| < Flat.MIN_DRAW_SIZE ∨ |ey - sy| < Flat.MIN_DRAW_SIZE →
      Flat.handleMouseUpDraw sx sy ex ey pills nid color = pills) ∧
    (Round.onMouseUpDraw 100 100 105 105 = some (100, 100, 40, 40) ∧
      |(105 : ℚ) - 100| < Round.MIN_PILL_SIZE) := by
  constructor
  · intro sx sy ex ey pills nid color h
    have hneg : ¬(|ex - sx| ≥ Flat.MIN_DRAW_SIZE ∧ |ey - sy| ≥ Flat.MIN_DRAW_SIZE) := by
      rintro ⟨hw, hh⟩
      rcases h with h | h
      · exact absurd hw (not_le.mpr h)
      · exact absurd hh (not_le.mpr h)
    simp only [Flat.handleMouseUpDraw]
    rw [if_neg hneg]
  · constructor
    · norm_num [Round.onMouseUpDraw, Round.drawingPreview, Round.MIN_PILL_SIZE,
        min_def, max_def, abs_of_nonneg]
    · norm_num [Round.MIN_PILL_SIZE, abs_of_nonneg]

/-- C5 witness: a 10×100 draw gesture (width below the 40 minimum) adds
nothing in the flat-color variant. -/
theorem C5_draw_below_minimum_witness :
    Flat.handleMouseUpDraw 0 0 10 100 [] 0 "c" = [] :=
  C5_draw_below_minimum.1 0 0 10 100 [] 0 "c"
    (Or.inl (by norm_num [Flat.MIN_DRAW_SIZE, abs_of_nonneg]))

/-- C6 counterexample: the flat-color variant's drag handler applies the raw
pointer offset with no clamping — dragging pill 0 (grabbed with zero offset)
to pointer position `(-10, 5)` moves it to `x = -10`, outside every
container's bounds `[0, cw - w]`. -/
theorem C6_counterexample :
    Flat.handleMouseMoveDrag 0 0 0 (-10) 5 [⟨0, 3, 3, 50, 50, "c"⟩] =
      [⟨0, -10, 5, 50, 50, "c"⟩] ∧ (-10 : ℚ) < 0 := by
  constructor
  · norm_num [Flat.handleMouseMoveDrag]
  · norm_num

/-- C6 amended: only the corner-rounding variant clamps after a drag move —
its dragged pill always ends inside `[0, cw - width] × [0, ch - height]`
(when the pill fits the container) with its size unchanged; the flat-color
variant applies the raw pointer offset with no clamping at all. -/
theorem C6_amended_clamp :
    (∀ (cw ch x y offX offY : ℚ) (pill : Round.PillPart),
      pill.width ≤ cw → pill.height ≤ ch →
      0 ≤ (Round.onMouseMoveDrag cw ch x y offX offY pill).x ∧
      (Round.onMouseMoveDrag cw ch x y offX offY pill).x ≤ cw - pill.width ∧
      0 ≤ (Round.onMouseMoveDrag cw ch x y offX offY pill).y ∧
      (Round.onMouseMoveDrag cw ch x y offX offY pill).y ≤ ch - pill.height ∧
      (Round.onMouseMoveDrag cw ch x y offX offY pill).width = pill.width ∧
      (Round.onMouseMoveDrag cw ch x y offX offY pill).height = pill.height) ∧
    (∀ (dragId : Nat) (dx dy x y : ℚ) (pill : Flat.Pill),
      pill.id = dragId →
      Flat.handleMouseMoveDrag dragId dx dy x y [pill] =
        [{ pill with x := x - dx, y := y - dy }]) := by
  constructor
  · intro cw ch x y offX offY pill hw hh
    simp only [Round.onMouseMoveDrag]
    refine ⟨le_max_left 0 _, max_le (by linarith) (min_le_right _ _),
      le_max_left 0 _, max_le (by linarith) (min_le_right _ _), by trivial, by trivial⟩
  · intro dragId dx dy x y pill hid
    simp [Flat.handleMouseMoveDrag, hid]

/-- C6 amended witness: dragging a 50×40 rounded pill far right and above
inside a 500×400 container keeps it inside the bounds; the same raw-offset
drag in the flat variant lands at the unclamped position `(-10, 5)`. -/
theorem C6_amended_clamp_witness :
    (0 ≤ (Round.onMouseMoveDrag 500 400 1000 (-50) 0 0
        ⟨1, 0, 0, 50, 40, "c", ⟨true, true, true, true⟩, none⟩).x ∧
      (Round.onMouseMoveDrag 500 400 1000 (-50) 0 0
        ⟨1, 0, 0, 50, 40, "c", ⟨true, true, true, true⟩, none⟩).x ≤ 500 - 50 ∧
      0 ≤ (Round.onMouseMoveDrag 500 400 1000 (-50) 0 0
        ⟨1, 0, 0, 50, 40, "c", ⟨true, true, true, true⟩, none⟩).y ∧
      (Round.onMouseMoveDrag 500 400 1000 (-50) 0 0
        ⟨1, 0, 0, 50, 40, "c", ⟨true, true, true, true⟩, none⟩).y ≤ 400 - 40 ∧
      (Round.onMouseMoveDrag 500 400 1000 (-50) 0 0
        ⟨1, 0, 0, 50, 40, "c", ⟨true, true, true, true⟩, none⟩).width = 50 ∧
      (Round.onMouseMoveDrag 500 400 1000 (-50) 0 0
        ⟨1, 0, 0, 50, 40, "c", ⟨true, true, true, true⟩, none⟩).height = 40) ∧
    Flat.handleMouseMoveDrag 2 0 0 (-10) 5 [⟨2, 3, 3, 50, 50, "cc"⟩] =
      [⟨2, -10, 5, 50, 50, "cc"⟩] := by
  constructor
  · exact C6_amended_clamp.1 500 400 1000 (-50) 0 0
      ⟨1, 0, 0, 50, 40, "c", ⟨true, true, true, true⟩, none⟩
      (by norm_num) (by norm_num)
  · have h := C6_amended_clamp.2 2 0 0 (-10) 5 ⟨2, 3, 3, 50, 50, "cc"⟩ rfl
    norm_num at h
    exact h

/-- C10: a shape a split operation does not replace by children (passed
through unchanged or nudged aside) retains the input shape's id, color,
width and height in both variants; only shapes actually split receive fresh
ids. -/
theorem C10_unsplit_keeps_fields :
    (∀ (splitX splitY : ℚ) (pill q : Flat.Pill) (nid : Nat),
      Flat.splitOnePill splitX splitY pill nid = [q] →
      q.id = pill.id ∧ q.color = pill.color ∧ q.w = pill.w ∧ q.h = pill.h) ∧
    (∀ (cw ch : ℚ) (part : Round.PillPart) (line : Round.SplitLine) (splitAt : ℚ),
      (Round.movePartAside cw ch part line splitAt).id = part.id ∧
      (Round.movePartAside cw ch part line splitAt).color = part.color ∧
      (Round.movePartAside cw ch part line splitAt).width = part.width ∧
      (Round.movePartAside cw ch part line splitAt).height = part.height) := by
  constructor
  · intro splitX splitY pill q nid h
    simp only [Flat.splitOnePill] at h
    split_ifs at h <;> simp_all
    all_goals subst h
    all_goals exact ⟨rfl, rfl, rfl, rfl⟩
  · intro cw ch part line splitAt
    cases line <;> simp only [Round.movePartAside] <;> split_ifs <;> simp

/-- C10 witness: the 25×25 flat pill nudged by the split at `(15, 15)`
keeps id 0, color "cc" and its 25×25 size; a moved-aside rounded part keeps
id, color and size too. -/
theorem C10_unsplit_keeps_fields_witness :
    ((⟨0, -12, -12, 25, 25, "cc"⟩ : Flat.Pill).id = (⟨0, 0, 0, 25, 25, "cc"⟩ : Flat.Pill).id ∧
      (⟨0, -12, -12, 25, 25, "cc"⟩ : Flat.Pill).color = (⟨0, 0, 0, 25, 25, "cc"⟩ : Flat.Pill).color ∧
      (⟨0, -12, -12, 25, 25, "cc"⟩ : Flat.Pill).w = (⟨0, 0, 0, 25, 25, "cc"⟩ : Flat.Pill).w ∧
      (⟨0, -12, -12, 25, 25, "cc"⟩ : Flat.Pill).h = (⟨0, 0, 0, 25, 25, "cc"⟩ : Flat.Pill).h) ∧
    ((Round.movePartAside 1000 1000 ⟨9, 0, 0, 30, 50, "c", ⟨true, true, true, true⟩, none⟩
        .vertical 20).id = (⟨9, 0, 0, 30, 50, "c", ⟨true, true, true, true⟩, none⟩ : Round.PillPart).id ∧
      (Round.movePartAside 1000 1000 ⟨9, 0, 0, 30, 50, "c", ⟨true, true, true, true⟩, none⟩
        .vertical 20).color = (⟨9, 0, 0, 30, 50, "c", ⟨true, true, true, true⟩, none⟩ : Round.PillPart).color ∧
      (Round.movePartAside 1000 1000 ⟨9, 0, 0, 30, 50, "c", ⟨true, true, true, true⟩, none⟩
        .vertical 20).width = (⟨9, 0, 0, 30, 50, "c", ⟨true, true, true, true⟩, none⟩ : Round.PillPart).width ∧
      (Round.movePartAside 1000 1000 ⟨9, 0, 0, 30, 50, "c", ⟨true, true, true, true⟩, none⟩
        .vertical 20).height = (⟨9, 0, 0, 30, 50, "c", ⟨true, true, true, true⟩, none⟩ : Round.PillPart).height) :=
  ⟨C10_unsplit_keeps_fields.1 15 15 ⟨0, 0, 0, 25, 25, "cc"⟩ ⟨0, -12, -12, 25, 25, "cc"⟩ 1
      (by norm_num [Flat.splitOnePill, Flat.MIN_SPLIT_SIZE]),
   C10_unsplit_keeps_fields.2 1000 1000 ⟨9, 0, 0, 30, 50, "c", ⟨true, true, true, true⟩, none⟩
      .vertical 20⟩
